import Mathlib

/-!
Verification of the cgol repository (src/cgol.c), a terminal Conway's
Game of Life.  The simulation state is shallowly embedded: the two C
cell buffers `grid` and `diff` (each `gs` ints) become total functions
`Nat → Nat` whose values beyond the buffer are simply never touched by
the embedded operations; C `int` indices and cell values are `Nat`
(they are non-negative throughout the program), the tick budget of the
main loop is `Int` (it is decremented below zero by design).
-/

set_option maxHeartbeats 1000000
set_option maxRecDepth 8000

namespace Cgol

/-- One cell write, `buf[i] = v` on a buffer modelled as `Nat → Nat`. -/
def writeCell (g : Nat → Nat) (i v : Nat) : Nat → Nat :=
  fun j => if j = i then v else g j

/-- The `sides` array of `neighbors` (src/cgol.c:150-162): for a flat
position `pos` with row `pos / gw` and column `pos % gw`, the eight
neighbouring flat positions in source order (top-left, top, top-right,
right, bottom-right, bottom, bottom-left, left); the C sentinel `-1`
for an off-grid position is modelled as `none`.  The C guards
`r - 1 >= 0` / `c - 1 >= 0` on ints are `1 ≤ r` / `1 ≤ c`. -/
def sides (gw gh pos : Nat) : List (Option Nat) :=
  let r := pos / gw
  let c := pos % gw
  [ if 1 ≤ r ∧ 1 ≤ c then some ((r-1) * gw + (c-1)) else none,
    if 1 ≤ r then some ((r-1) * gw + c) else none,
    if 1 ≤ r ∧ c+1 < gw then some ((r-1) * gw + (c+1)) else none,
    if c+1 < gw then some (r * gw + (c+1)) else none,
    if r+1 < gh ∧ c+1 < gw then some ((r+1) * gw + (c+1)) else none,
    if r+1 < gh then some ((r+1) * gw + c) else none,
    if r+1 < gh ∧ 1 ≤ c then some ((r+1) * gw + (c-1)) else none,
    if 1 ≤ c then some (r * gw + (c-1)) else none ]

/-- `neighbors` (src/cgol.c:149-168): sum `grid[sides[i]]` over the
in-grid entries, an off-grid entry contributing 0. -/
def neighbors (gw gh : Nat) (grid : Nat → Nat) (pos : Nat) : Nat :=
  (sides gw gh pos).foldl (fun n s => n + s.elim 0 grid) 0

/-- The simulation state: grid dimensions `gw`, `gh`, buffer size `gs`,
the two cell buffers and the generation counter (src/cgol.c:41-44). -/
structure St where
  gw : Nat
  gh : Nat
  gs : Nat
  grid : Nat → Nat
  diff : Nat → Nat
  generation : Nat

/-- The body of the first loop of `tick` (src/cgol.c:203-211): the value
written into `diff[i]` for a cell `i`, from the pre-tick `grid`. -/
def nextCellVal (gw gh : Nat) (g : Nat → Nat) (i : Nat) : Nat :=
  let n := neighbors gw gh g i
  if g i = 1 ∧ (n < 2 ∨ 3 < n) then 0
  else if g i = 0 ∧ n = 3 then 1
  else g i

/-- The `diff` buffer after the first loop of `tick`: every cell
`i < gs` freshly written, the rest of the function untouched. -/
def nextDiff (s : St) : Nat → Nat :=
  fun i => if i < s.gs then nextCellVal s.gw s.gh s.grid i else s.diff i

/-- `tick` (src/cgol.c:199-216): fill `diff` from the current `grid`,
then copy each cell whose value differs back into `grid`, and increment
the generation counter. -/
def tick (s : St) : St :=
  let d := nextDiff s
  { s with
    diff := d
    grid := fun i => if i < s.gs then (if s.grid i ≠ d i then d i else s.grid i) else s.grid i
    generation := s.generation + 1 }

/-- A full unconditional commit: `grid` becomes the freshly computed
`diff` on every cell of the buffer.  This is the spec-side description
of the commit loop, to be compared with the conditional copy of `tick`. -/
def tickCopyAll (s : St) : St :=
  { s with
    diff := nextDiff s
    grid := fun i => if i < s.gs then nextDiff s i else s.grid i
    generation := s.generation + 1 }

/- ### Arithmetic helpers for flat row-major indices -/

theorem rowdiv (gw r c : Nat) (hc : c < gw) : (r * gw + c) / gw = r := by
  have hgw : 0 < gw := Nat.lt_of_le_of_lt (Nat.zero_le c) hc
  rw [Nat.add_comm, Nat.add_mul_div_right _ _ hgw]
  simp [Nat.div_eq_of_lt hc]

theorem rowmod (gw r c : Nat) (hc : c < gw) : (r * gw + c) % gw = c := by
  rw [Nat.add_comm, Nat.add_mul_mod_self_right]
  exact Nat.mod_eq_of_lt hc

theorem idx_lt (gw gh r c : Nat) (hr : r < gh) (hc : c < gw) :
    r * gw + c < gw * gh := by
  have h1 : r * gw + c < (r + 1) * gw := by
    rw [Nat.succ_mul]; omega
  have h2 : (r + 1) * gw ≤ gh * gw := Nat.mul_le_mul_right gw hr
  rw [Nat.mul_comm gw gh]; omega

theorem idx_decomp (gw gh pos : Nat) (hpos : pos < gw * gh) :
    (pos / gw) * gw + pos % gw = pos ∧ pos / gw < gh ∧ pos % gw < gw := by
  have hgw : 0 < gw := by
    rcases Nat.eq_zero_or_pos gw with h | h
    · subst h; simp at hpos
    · exact h
  refine ⟨?_, ?_, Nat.mod_lt _ hgw⟩
  · rw [Nat.mul_comm]; exact Nat.div_add_mod pos gw
  · rw [Nat.div_lt_iff_lt_mul hgw, Nat.mul_comm gh gw] at *
    exact hpos

/-- Unfolding the option sentinel of a `sides` entry. -/
theorem elim_ite {P : Prop} [Decidable P] (x : Nat) (g : Nat → Nat) :
    (if P then some x else none).elim 0 g = if P then g x else 0 := by
  by_cases h : P <;> simp [h]

/-- `neighbors` at the flat position of row `ρ`, column `γ`, written as
the eight explicitly guarded terms of the `sides` array. -/
theorem neighbors_rc (gw gh : Nat) (g : Nat → Nat) (ρ γ : Nat) (hγ : γ < gw) :
    neighbors gw gh g (ρ * gw + γ) =
      (if 1 ≤ ρ ∧ 1 ≤ γ then g ((ρ-1) * gw + (γ-1)) else 0)
    + (if 1 ≤ ρ then g ((ρ-1) * gw + γ) else 0)
    + (if 1 ≤ ρ ∧ γ+1 < gw then g ((ρ-1) * gw + (γ+1)) else 0)
    + (if γ+1 < gw then g (ρ * gw + (γ+1)) else 0)
    + (if ρ+1 < gh ∧ γ+1 < gw then g ((ρ+1) * gw + (γ+1)) else 0)
    + (if ρ+1 < gh then g ((ρ+1) * gw + γ) else 0)
    + (if ρ+1 < gh ∧ 1 ≤ γ then g ((ρ+1) * gw + (γ-1)) else 0)
    + (if 1 ≤ γ then g (ρ * gw + (γ-1)) else 0) := by
  unfold neighbors sides
  rw [rowdiv gw ρ γ hγ, rowmod gw ρ γ hγ]
  simp only [List.foldl, elim_ite, Nat.zero_add]

/-- The conditional commit loop of `tick` (src/cgol.c:212-214) writes
the same grid as an unconditional copy of the whole `diff` buffer. -/
theorem tick_eq_copyAll (s : St) : tick s = tickCopyAll s := by
  unfold tick tickCopyAll
  simp only [St.mk.injEq, and_true, true_and]
  funext i
  by_cases hi : i < s.gs
  · simp only [hi, if_true]
    by_cases h : s.grid i = nextDiff s i
    · simp [h]
    · simp [h]
  · simp [hi]

/-- A concrete one-cell state used to instantiate hypotheses. -/
def stA : St :=
  { gw := 1, gh := 1, gs := 1, grid := fun _ => 1, diff := fun _ => 0
    generation := 0 }

/-- C1: one `tick` is a synchronous generation update: each cell of the
new grid is the classic rule applied to the cell's pre-tick state and
its neighbor count over the pre-tick grid (alive survives iff 2 or 3
live neighbors, dead becomes alive iff exactly 3, otherwise unchanged),
and the generation counter grows by exactly 1. -/
theorem tick_one_generation (s : St) (i : Nat) (hi : i < s.gs)
    (hcell : s.grid i = 0 ∨ s.grid i = 1) :
    ((tick s).grid i =
      if s.grid i = 1 then
        (if neighbors s.gw s.gh s.grid i = 2 ∨ neighbors s.gw s.gh s.grid i = 3
         then 1 else 0)
      else
        (if neighbors s.gw s.gh s.grid i = 3 then 1 else 0))
    ∧ (tick s).generation = s.generation + 1 := by
  rw [tick_eq_copyAll]
  refine ⟨?_, rfl⟩
  show (if i < s.gs then nextDiff s i else s.grid i) = _
  simp only [hi, if_true, nextDiff, nextCellVal]
  rcases hcell with h0 | h1 <;> split_ifs <;> omega

theorem tick_one_generation_witness :
    (0 < stA.gs ∧ (stA.grid 0 = 0 ∨ stA.grid 0 = 1))
    ∧ (((tick stA).grid 0 =
        if stA.grid 0 = 1 then
          (if neighbors stA.gw stA.gh stA.grid 0 = 2 ∨ neighbors stA.gw stA.gh stA.grid 0 = 3
           then 1 else 0)
        else
          (if neighbors stA.gw stA.gh stA.grid 0 = 3 then 1 else 0))
      ∧ (tick stA).generation = stA.generation + 1) :=
  ⟨⟨by decide, Or.inr rfl⟩, tick_one_generation stA 0 (by decide) (Or.inr rfl)⟩

/-- C10: after `tick`, the current buffer equals the scratch buffer
cell-for-cell, and the conditional commit loop is equivalent to an
unconditional full copy of scratch into current. -/
theorem tick_commit_refines (s : St) (i : Nat) (hi : i < s.gs) :
    tick s = tickCopyAll s ∧ (tick s).grid i = (tick s).diff i := by
  refine ⟨tick_eq_copyAll s, ?_⟩
  rw [tick_eq_copyAll]
  show (if i < s.gs then nextDiff s i else s.grid i) = nextDiff s i
  simp [hi]

theorem tick_commit_refines_witness :
    0 < stA.gs
    ∧ (tick stA = tickCopyAll stA ∧ (tick stA).grid 0 = (tick stA).diff 0) :=
  ⟨by decide, tick_commit_refines stA 0 (by decide)⟩

/- ### Startup allocation (src/cgol.c:239-243) -/

/-- Grid width at startup: `gw` is a zero-initialized global never
assigned elsewhere, so `if(!gw) gw = 256` always yields 256. -/
def gw0 : Nat := 256

/-- Grid height at startup, by the same reasoning as `gw0`. -/
def gh0 : Nat := 256

/-- Buffer size at startup: the source computes `gs = gw * gw`
(src/cgol.c:241), written here exactly as in the source. -/
def gs0 : Nat := gw0 * gw0

/-- An `ecalloc`-allocated buffer of `n` cells: `calloc` returns
zero-initialized memory (src/cgol.c:47-54). -/
def callocBuf (_n : Nat) : Nat → Nat := fun _ => 0

/-- The whole simulation state right after allocation, before the
initial population step. -/
def st0 : St :=
  { gw := gw0, gh := gh0, gs := gs0, grid := callocBuf gs0
    diff := callocBuf gs0, generation := 0 }

/-- C9: at startup two equal-size buffers of `width*height` cells are
allocated (the source's `gw*gw` equals `gw*gh` because both dimensions
are 256) and both are zero-initialized, so every cell is dead. -/
theorem startup_alloc :
    st0.gs = st0.gw * st0.gh
    ∧ (∀ i, st0.grid i = 0) ∧ (∀ i, st0.diff i = 0) :=
  ⟨rfl, fun _ => rfl, fun _ => rfl⟩

/- ### The driver loop (src/cgol.c:254-262) -/

/-- The observable control state of the render/advance/sleep loop. -/
inductive LoopState where
  | running (ticks : Int)
  | terminated
deriving DecidableEq

/-- One cycle of the main loop: draw, tick, then `if(!--ticks) break;`
(src/cgol.c:256-262).  The budget is a C `int`, modelled as `Int`; the
loop terminates exactly when the decremented budget hits 0. -/
def loopStep : LoopState → LoopState
  | .running t => if t - 1 = 0 then .terminated else .running (t - 1)
  | .terminated => .terminated

/-- `n` cycles of the main loop. -/
def loopIter : Nat → LoopState → LoopState
  | 0, s => s
  | n+1, s => loopIter n (loopStep s)

/-- The default tick budget when `-n` is absent (src/cgol.c:225). -/
def defaultTicks : Int := 0

theorem loopIter_nonpos (n : Nat) :
    ∀ t : Int, t ≤ 0 → loopIter n (.running t) = .running (t - n) := by
  induction n with
  | zero => intro t ht; simp [loopIter]
  | succ n ih =>
      intro t ht
      have hne : ¬(t - 1 = 0) := by omega
      have : loopStep (.running t) = .running (t - 1) := by
        simp [loopStep, hne]
      rw [loopIter, this, ih (t - 1) (by omega)]
      congr 1
      push_cast
      omega

/-- C6: with the default (absent `-n`) tick budget the loop never
terminates: after any number of completed cycles it is still `running`
(with budget `-n`), never `terminated`. -/
theorem loop_never_terminates (n : Nat) :
    loopIter n (.running defaultTicks) = .running (-(n : Int))
    ∧ loopIter n (.running defaultTicks) ≠ .terminated := by
  have h := loopIter_nonpos n defaultTicks (by simp [defaultTicks])
  rw [show defaultTicks - (n : Int) = -(n : Int) by simp [defaultTicks]] at h
  exact ⟨h, by rw [h]; intro hc; cases hc⟩

/- ### The header line of draw (src/cgol.c:73-83) -/

/-- The VT100 clear-to-end-of-line sequence `CLEARRIGHT` (src/cgol.c:20). -/
def CLEARRIGHT : List Char := "\x1b[0K".toList

/-- The header printed by `draw` at the top of the screen
(src/cgol.c:78): format `"Conway's Game of Life ⋅ #%d ⋅ %0dx%0d"`
followed by `CLEARRIGHT`, with arguments `generation, rows, cols` —
the viewport dimensions, not the grid dimensions. -/
def headerLine (generation rows cols : Nat) : List Char :=
  "Conway's Game of Life ⋅ #".toList ++ (Nat.repr generation).toList
    ++ " ⋅ ".toList ++ (Nat.repr rows).toList ++ "x".toList
    ++ (Nat.repr cols).toList ++ CLEARRIGHT

/-- The header the claim describes, following the spec's words: the
generation number and the grid's dimensions, grid width × grid height. -/
def claimHeaderLine (generation gw gh : Nat) : List Char :=
  "Conway's Game of Life ⋅ #".toList ++ (Nat.repr generation).toList
    ++ " ⋅ ".toList ++ (Nat.repr gw).toList ++ "x".toList
    ++ (Nat.repr gh).toList ++ CLEARRIGHT

/-- C7 counterexample: on a 24×80 terminal at generation 0 with the
default 256×256 grid, the printed header is not the claimed one and
does not even mention the grid dimensions `256x256`; it shows the
viewport dimensions `24x80` instead. -/
theorem header_shows_viewport_not_grid :
    headerLine 0 24 80 ≠ claimHeaderLine 0 gw0 gh0
    ∧ ¬ ((Nat.repr gw0).toList ++ "x".toList ++ (Nat.repr gh0).toList)
          <:+: headerLine 0 24 80
    ∧ ((Nat.repr 24).toList ++ "x".toList ++ (Nat.repr 80).toList)
          <:+: headerLine 0 24 80 := by
  refine ⟨by decide, by decide, ?_⟩
  decide

/-- C7 amended: `draw` prints a header line showing the generation
number and the viewport dimensions (terminal rows × cols), and clears
any trailing stale content by ending the line with the VT100
clear-to-end-of-line sequence. -/
theorem header_contents (g r c : Nat) :
    (∃ a b, headerLine g r c = a ++ (Nat.repr g).toList ++ b)
    ∧ (∃ a b, headerLine g r c
        = a ++ ((Nat.repr r).toList ++ "x".toList ++ (Nat.repr c).toList) ++ b)
    ∧ (∃ a, headerLine g r c = a ++ CLEARRIGHT) := by
  refine ⟨⟨"Conway's Game of Life ⋅ #".toList,
          " ⋅ ".toList ++ (Nat.repr r).toList ++ "x".toList
            ++ (Nat.repr c).toList ++ CLEARRIGHT, ?_⟩,
         ⟨"Conway's Game of Life ⋅ #".toList ++ (Nat.repr g).toList
            ++ " ⋅ ".toList, CLEARRIGHT, ?_⟩,
         ⟨"Conway's Game of Life ⋅ #".toList ++ (Nat.repr g).toList
            ++ " ⋅ ".toList ++ (Nat.repr r).toList ++ "x".toList
            ++ (Nat.repr c).toList, ?_⟩⟩
    <;> simp [headerLine, List.append_assoc]

/- ### Exit statuses (src/cgol.c:56-71, 223-267) -/

/-- `die` prints its message and then calls `exit(0)` unconditionally
(src/cgol.c:70): whatever the format string, the status is 0. -/
def dieStatus (_fmt : String) : Nat := 0

/-- The terminating paths of the process. -/
inductive ExitPath where
  | allocFailure
  | usageError
  | unreadableFile
  | versionPrint
  | tickBudgetExhausted

/-- The exit status of each terminating path: the four `die` paths
(src/cgol.c:52, 220, 247, 232) and the `break` out of the main loop
when the tick budget hits zero, which falls through to `return 0`
(src/cgol.c:259-266). -/
def exitStatus : ExitPath → Nat
  | .allocFailure => dieStatus "Cannot allocate memory."
  | .usageError => dieStatus "Usage: %s [-v] [-dgn <arg>] [file]"
  | .unreadableFile => dieStatus "%s: %s:"
  | .versionPrint => dieStatus "cgol-VERSION"
  | .tickBudgetExhausted => 0

/-- C8: every terminating path of the process, error paths included,
exits with status 0. -/
theorem all_exits_zero : ∀ p : ExitPath, exitStatus p = 0 := by
  intro p; cases p <;> rfl

/- ### Spec-side neighbor counting over absolute coordinates -/

/-- One probed position of the spec's neighbor count: the cell value at
absolute row `r`, column `c`, or 0 when the position lies outside
`[0,gh) × [0,gw)` (hard boundary, no wrap-around). -/
def specLook (gw gh : Nat) (g : Nat → Nat) (r c : Int) : Nat :=
  if 0 ≤ r ∧ r < (gh : Int) ∧ 0 ≤ c ∧ c < (gw : Int) then
    g (r.toNat * gw + c.toNat)
  else 0

/-- The spec's neighbor count of the cell at row `ρ`, column `γ`: the 8
adjacent absolute positions (4 sides and 4 diagonals), each contributing
its cell value when inside the grid and 0 otherwise. -/
def specNeighbors (gw gh : Nat) (g : Nat → Nat) (ρ γ : Int) : Nat :=
  specLook gw gh g (ρ-1) (γ-1) + specLook gw gh g (ρ-1) γ
    + specLook gw gh g (ρ-1) (γ+1) + specLook gw gh g ρ (γ+1)
    + specLook gw gh g (ρ+1) (γ+1) + specLook gw gh g (ρ+1) γ
    + specLook gw gh g (ρ+1) (γ-1) + specLook gw gh g ρ (γ-1)

theorem specLook_eq (gw gh : Nat) (g : Nat → Nat) (r c : Int) (r2 c2 : Nat)
    (hr : r.toNat = r2) (hc : c.toNat = c2) (P : Prop) [Decidable P]
    (hP : (0 ≤ r ∧ r < (gh : Int) ∧ 0 ≤ c ∧ c < (gw : Int)) ↔ P) :
    specLook gw gh g r c = if P then g (r2 * gw + c2) else 0 := by
  unfold specLook
  by_cases hq : P
  · rw [if_pos (hP.mpr hq), if_pos hq, hr, hc]
  · rw [if_neg (fun hx => hq (hP.mp hx)), if_neg hq]

/-- The spec-side count at in-grid coordinates, in the same guarded
form as `neighbors_rc`. -/
theorem specNeighbors_rc (gw gh : Nat) (g : Nat → Nat) (ρ γ : Nat)
    (hρ : ρ < gh) (hγ : γ < gw) :
    specNeighbors gw gh g (ρ : Int) (γ : Int) =
      (if 1 ≤ ρ ∧ 1 ≤ γ then g ((ρ-1) * gw + (γ-1)) else 0)
    + (if 1 ≤ ρ then g ((ρ-1) * gw + γ) else 0)
    + (if 1 ≤ ρ ∧ γ+1 < gw then g ((ρ-1) * gw + (γ+1)) else 0)
    + (if γ+1 < gw then g (ρ * gw + (γ+1)) else 0)
    + (if ρ+1 < gh ∧ γ+1 < gw then g ((ρ+1) * gw + (γ+1)) else 0)
    + (if ρ+1 < gh then g ((ρ+1) * gw + γ) else 0)
    + (if ρ+1 < gh ∧ 1 ≤ γ then g ((ρ+1) * gw + (γ-1)) else 0)
    + (if 1 ≤ γ then g (ρ * gw + (γ-1)) else 0) := by
  unfold specNeighbors
  rw [specLook_eq gw gh g ((ρ:Int)-1) ((γ:Int)-1) (ρ-1) (γ-1) (by omega) (by omega)
        (1 ≤ ρ ∧ 1 ≤ γ) (by omega),
      specLook_eq gw gh g ((ρ:Int)-1) (γ:Int) (ρ-1) γ (by omega) (by omega)
        (1 ≤ ρ) (by omega),
      specLook_eq gw gh g ((ρ:Int)-1) ((γ:Int)+1) (ρ-1) (γ+1) (by omega) (by omega)
        (1 ≤ ρ ∧ γ+1 < gw) (by omega),
      specLook_eq gw gh g (ρ:Int) ((γ:Int)+1) ρ (γ+1) (by omega) (by omega)
        (γ+1 < gw) (by omega),
      specLook_eq gw gh g ((ρ:Int)+1) ((γ:Int)+1) (ρ+1) (γ+1) (by omega) (by omega)
        (ρ+1 < gh ∧ γ+1 < gw) (by omega),
      specLook_eq gw gh g ((ρ:Int)+1) (γ:Int) (ρ+1) γ (by omega) (by omega)
        (ρ+1 < gh) (by omega),
      specLook_eq gw gh g ((ρ:Int)+1) ((γ:Int)-1) (ρ+1) (γ-1) (by omega) (by omega)
        (ρ+1 < gh ∧ 1 ≤ γ) (by omega),
      specLook_eq gw gh g (ρ:Int) ((γ:Int)-1) ρ (γ-1) (by omega) (by omega)
        (1 ≤ γ) (by omega)]

/-- Unfolding the option sentinel under `Option.isSome`. -/
theorem isSome_ite {P : Prop} [Decidable P] (x : Nat) :
    (if P then some x else none).isSome = decide P := by
  by_cases h : P <;> simp [h]

/-- C2: for an in-bounds flat position, `neighbors` equals the spec
count over the at most 8 adjacent in-grid positions (out-of-grid
positions contributing 0); every in-grid entry of the `sides` array
stays below `gw*gh`, and a corner cell has at most 3 in-grid entries. -/
theorem neighbors_safe (gw gh : Nat) (g : Nat → Nat) (pos : Nat)
    (hpos : pos < gw * gh) :
    neighbors gw gh g pos
      = specNeighbors gw gh g ((pos / gw : Nat) : Int) ((pos % gw : Nat) : Int)
    ∧ (∀ q ∈ sides gw gh pos, ∀ j : Nat, q = some j → j < gw * gh)
    ∧ (((pos / gw = 0 ∨ pos / gw = gh - 1) ∧ (pos % gw = 0 ∨ pos % gw = gw - 1)) →
        (sides gw gh pos).countP Option.isSome ≤ 3) := by
  obtain ⟨hsum, hρ0, hγ0⟩ := idx_decomp gw gh pos hpos
  obtain ⟨ρ, γ, hρ, hγ, rfl⟩ : ∃ ρ γ, ρ < gh ∧ γ < gw ∧ ρ * gw + γ = pos :=
    ⟨pos / gw, pos % gw, hρ0, hγ0, hsum⟩
  rw [rowdiv gw ρ γ hγ, rowmod gw ρ γ hγ]
  refine ⟨?_, ?_, ?_⟩
  · rw [neighbors_rc gw gh g ρ γ hγ, specNeighbors_rc gw gh g ρ γ hρ hγ]
  · intro q hq j hqj
    simp only [sides, List.mem_cons, List.not_mem_nil, or_false] at hq
    rw [rowdiv gw ρ γ hγ, rowmod gw ρ γ hγ] at hq
    rcases hq with rfl|rfl|rfl|rfl|rfl|rfl|rfl|rfl <;> split at hqj
    all_goals first
      | (injection hqj with hj; subst hj; exact idx_lt _ _ _ _ (by omega) (by omega))
      | (cases hqj)
  · intro hcorner
    simp only [sides, List.countP_cons, List.countP_nil, isSome_ite]
    rw [rowdiv gw ρ γ hγ, rowmod gw ρ γ hγ]
    simp only [decide_eq_true_eq]
    split_ifs <;> omega

theorem neighbors_safe_witness :
    0 < 3 * 3
    ∧ (neighbors 3 3 (fun _ => 1) 0
        = specNeighbors 3 3 (fun _ => 1) (((0:Nat) / 3 : Nat) : Int) (((0:Nat) % 3 : Nat) : Int)
      ∧ (∀ q ∈ sides 3 3 0, ∀ j : Nat, q = some j → j < 3 * 3)
      ∧ ((((0:Nat) / 3 = 0 ∨ (0:Nat) / 3 = 3 - 1) ∧ ((0:Nat) % 3 = 0 ∨ (0:Nat) % 3 = 3 - 1)) →
          (sides 3 3 0).countP Option.isSome ≤ 3)) :=
  ⟨by decide, neighbors_safe 3 3 (fun _ => 1) 0 (by decide)⟩


/- ### The blinker pattern (C3) -/

/-- The grid holding exactly a horizontal line of 3 live cells in row
`r`, columns `c-1`, `c`, `c+1`, every other cell dead. -/
def lineH (gw r c : Nat) : Nat → Nat := fun i =>
  if i / gw = r ∧ (i % gw = c - 1 ∨ i % gw = c ∨ i % gw = c + 1) then 1 else 0

/-- The grid holding exactly a vertical line of 3 live cells in column
`c`, rows `r-1`, `r`, `r+1`, every other cell dead. -/
def lineV (gw r c : Nat) : Nat → Nat := fun i =>
  if (i / gw = r - 1 ∨ i / gw = r ∨ i / gw = r + 1) ∧ i % gw = c then 1 else 0

theorem ite_ite_fold {P Q : Prop} [Decidable P] [Decidable Q] (a b : Nat) :
    (if P then (if Q then a else b) else b) = if P ∧ Q then a else b := by
  split_ifs <;> simp_all

theorem stepH_rc (gw gh r c : Nat) (hr1 : 1 ≤ r) (hr2 : r + 2 ≤ gh)
    (hc1 : 2 ≤ c) (hc2 : c + 3 ≤ gw) (ρ γ : Nat) (hρ : ρ < gh) (hγ : γ < gw) :
    nextCellVal gw gh (lineH gw r c) (ρ * gw + γ) = lineV gw r c (ρ * gw + γ) := by
  simp only [nextCellVal]
  rw [neighbors_rc gw gh (lineH gw r c) ρ γ hγ]
  simp only [lineH, lineV]
  by_cases hγp : γ + 1 < gw
  case pos =>
    simp only [rowdiv gw (ρ-1) (γ-1) (by omega), rowmod gw (ρ-1) (γ-1) (by omega),
      rowdiv gw (ρ-1) γ hγ, rowmod gw (ρ-1) γ hγ,
      rowdiv gw (ρ-1) (γ+1) hγp, rowmod gw (ρ-1) (γ+1) hγp,
      rowdiv gw ρ (γ-1) (by omega), rowmod gw ρ (γ-1) (by omega),
      rowdiv gw ρ γ hγ, rowmod gw ρ γ hγ,
      rowdiv gw ρ (γ+1) hγp, rowmod gw ρ (γ+1) hγp,
      rowdiv gw (ρ+1) (γ-1) (by omega), rowmod gw (ρ+1) (γ-1) (by omega),
      rowdiv gw (ρ+1) γ hγ, rowmod gw (ρ+1) γ hγ,
      rowdiv gw (ρ+1) (γ+1) hγp, rowmod gw (ρ+1) (γ+1) hγp,
      ite_ite_fold]
    have hsplit : ρ + 2 ≤ r ∨ ρ + 1 = r ∨ ρ = r ∨ ρ = r + 1 ∨ r + 2 ≤ ρ := by omega
    rcases hsplit with h|h|h|h|h
    · simp only [eq_false (show ¬(ρ-1 = r) by omega), eq_false (show ¬(ρ = r) by omega),
        eq_false (show ¬(ρ+1 = r) by omega), false_and, and_false, true_and, and_true,
        false_or, or_false, true_or, or_true, if_false, if_true, ite_self,
        eq_self_iff_true, Nat.add_zero, Nat.zero_add]
      split_ifs <;> first | contradiction | omega
    · simp only [eq_false (show ¬(ρ-1 = r) by omega), eq_false (show ¬(ρ = r) by omega),
        eq_true h, false_and, and_false, true_and, and_true,
        false_or, or_false, true_or, or_true, if_false, if_true, ite_self,
        eq_self_iff_true, Nat.add_zero, Nat.zero_add]
      split_ifs <;> first | contradiction | omega
    · simp only [eq_true h, eq_false (show ¬(ρ-1 = r) by omega),
        eq_false (show ¬(ρ+1 = r) by omega), false_and, and_false, true_and, and_true,
        false_or, or_false, true_or, or_true, if_false, if_true, ite_self,
        eq_self_iff_true, Nat.add_zero, Nat.zero_add]
      split_ifs <;> first | contradiction | omega
    · simp only [eq_true (show ρ-1 = r by omega), eq_false (show ¬(ρ = r) by omega),
        eq_false (show ¬(ρ+1 = r) by omega), false_and, and_false, true_and, and_true,
        false_or, or_false, true_or, or_true, if_false, if_true, ite_self,
        eq_self_iff_true, Nat.add_zero, Nat.zero_add]
      split_ifs <;> first | contradiction | omega
    · simp only [eq_false (show ¬(ρ-1 = r) by omega), eq_false (show ¬(ρ = r) by omega),
        eq_false (show ¬(ρ+1 = r) by omega), false_and, and_false, true_and, and_true,
        false_or, or_false, true_or, or_true, if_false, if_true, ite_self,
        eq_self_iff_true, Nat.add_zero, Nat.zero_add]
      split_ifs <;> first | contradiction | omega
  case neg =>
    simp only [eq_false hγp, and_false, false_and, if_false,
      rowdiv gw (ρ-1) (γ-1) (by omega), rowmod gw (ρ-1) (γ-1) (by omega),
      rowdiv gw (ρ-1) γ hγ, rowmod gw (ρ-1) γ hγ,
      rowdiv gw ρ (γ-1) (by omega), rowmod gw ρ (γ-1) (by omega),
      rowdiv gw ρ γ hγ, rowmod gw ρ γ hγ,
      rowdiv gw (ρ+1) (γ-1) (by omega), rowmod gw (ρ+1) (γ-1) (by omega),
      rowdiv gw (ρ+1) γ hγ, rowmod gw (ρ+1) γ hγ,
      ite_ite_fold]
    have hsplit : ρ + 2 ≤ r ∨ ρ + 1 = r ∨ ρ = r ∨ ρ = r + 1 ∨ r + 2 ≤ ρ := by omega
    rcases hsplit with h|h|h|h|h
    · simp only [eq_false (show ¬(ρ-1 = r) by omega), eq_false (show ¬(ρ = r) by omega),
        eq_false (show ¬(ρ+1 = r) by omega), false_and, and_false, true_and, and_true,
        false_or, or_false, true_or, or_true, if_false, if_true, ite_self,
        eq_self_iff_true, Nat.add_zero, Nat.zero_add]
      split_ifs <;> first | contradiction | omega
    · simp only [eq_false (show ¬(ρ-1 = r) by omega), eq_false (show ¬(ρ = r) by omega),
        eq_true h, false_and, and_false, true_and, and_true,
        false_or, or_false, true_or, or_true, if_false, if_true, ite_self,
        eq_self_iff_true, Nat.add_zero, Nat.zero_add]
      split_ifs <;> first | contradiction | omega
    · simp only [eq_true h, eq_false (show ¬(ρ-1 = r) by omega),
        eq_false (show ¬(ρ+1 = r) by omega), false_and, and_false, true_and, and_true,
        false_or, or_false, true_or, or_true, if_false, if_true, ite_self,
        eq_self_iff_true, Nat.add_zero, Nat.zero_add]
      split_ifs <;> first | contradiction | omega
    · simp only [eq_true (show ρ-1 = r by omega), eq_false (show ¬(ρ = r) by omega),
        eq_false (show ¬(ρ+1 = r) by omega), false_and, and_false, true_and, and_true,
        false_or, or_false, true_or, or_true, if_false, if_true, ite_self,
        eq_self_iff_true, Nat.add_zero, Nat.zero_add]
      split_ifs <;> first | contradiction | omega
    · simp only [eq_false (show ¬(ρ-1 = r) by omega), eq_false (show ¬(ρ = r) by omega),
        eq_false (show ¬(ρ+1 = r) by omega), false_and, and_false, true_and, and_true,
        false_or, or_false, true_or, or_true, if_false, if_true, ite_self,
        eq_self_iff_true, Nat.add_zero, Nat.zero_add]
      split_ifs <;> first | contradiction | omega


theorem stepV_rc (gw gh r c : Nat) (hr1 : 1 ≤ r) (hr2 : r + 2 ≤ gh)
    (hc1 : 2 ≤ c) (hc2 : c + 3 ≤ gw) (ρ γ : Nat) (hρ : ρ < gh) (hγ : γ < gw) :
    nextCellVal gw gh (lineV gw r c) (ρ * gw + γ) = lineH gw r c (ρ * gw + γ) := by
  simp only [nextCellVal]
  rw [neighbors_rc gw gh (lineV gw r c) ρ γ hγ]
  simp only [lineH, lineV]
  by_cases hγp : γ + 1 < gw
  case pos =>
    simp only [rowdiv gw (ρ-1) (γ-1) (by omega), rowmod gw (ρ-1) (γ-1) (by omega),
      rowdiv gw (ρ-1) γ hγ, rowmod gw (ρ-1) γ hγ,
      rowdiv gw (ρ-1) (γ+1) hγp, rowmod gw (ρ-1) (γ+1) hγp,
      rowdiv gw ρ (γ-1) (by omega), rowmod gw ρ (γ-1) (by omega),
      rowdiv gw ρ γ hγ, rowmod gw ρ γ hγ,
      rowdiv gw ρ (γ+1) hγp, rowmod gw ρ (γ+1) hγp,
      rowdiv gw (ρ+1) (γ-1) (by omega), rowmod gw (ρ+1) (γ-1) (by omega),
      rowdiv gw (ρ+1) γ hγ, rowmod gw (ρ+1) γ hγ,
      rowdiv gw (ρ+1) (γ+1) hγp, rowmod gw (ρ+1) (γ+1) hγp,
      ite_ite_fold]
    have hsplit : γ + 2 ≤ c ∨ γ + 1 = c ∨ γ = c ∨ γ = c + 1 ∨ c + 2 ≤ γ := by omega
    rcases hsplit with h|h|h|h|h
    · simp only [eq_false (show ¬(γ-1 = c) by omega), eq_false (show ¬(γ = c) by omega),
        eq_false (show ¬(γ+1 = c) by omega), false_and, and_false, true_and, and_true,
        false_or, or_false, true_or, or_true, if_false, if_true, ite_self,
        eq_self_iff_true, Nat.add_zero, Nat.zero_add]
      split_ifs <;> first | contradiction | omega
    · simp only [eq_false (show ¬(γ-1 = c) by omega), eq_false (show ¬(γ = c) by omega),
        eq_true h, false_and, and_false, true_and, and_true,
        false_or, or_false, true_or, or_true, if_false, if_true, ite_self,
        eq_self_iff_true, Nat.add_zero, Nat.zero_add]
      split_ifs <;> first | contradiction | omega
    · simp only [eq_true h, eq_false (show ¬(γ-1 = c) by omega),
        eq_false (show ¬(γ+1 = c) by omega), false_and, and_false, true_and, and_true,
        false_or, or_false, true_or, or_true, if_false, if_true, ite_self,
        eq_self_iff_true, Nat.add_zero, Nat.zero_add]
      split_ifs <;> first | contradiction | omega
    · simp only [eq_true (show γ-1 = c by omega), eq_false (show ¬(γ = c) by omega),
        eq_false (show ¬(γ+1 = c) by omega), false_and, and_false, true_and, and_true,
        false_or, or_false, true_or, or_true, if_false, if_true, ite_self,
        eq_self_iff_true, Nat.add_zero, Nat.zero_add]
      split_ifs <;> first | contradiction | omega
    · simp only [eq_false (show ¬(γ-1 = c) by omega), eq_false (show ¬(γ = c) by omega),
        eq_false (show ¬(γ+1 = c) by omega), false_and, and_false, true_and, and_true,
        false_or, or_false, true_or, or_true, if_false, if_true, ite_self,
        eq_self_iff_true, Nat.add_zero, Nat.zero_add]
      split_ifs <;> first | contradiction | omega
  case neg =>
    simp only [eq_false hγp, and_false, false_and, if_false,
      rowdiv gw (ρ-1) (γ-1) (by omega), rowmod gw (ρ-1) (γ-1) (by omega),
      rowdiv gw (ρ-1) γ hγ, rowmod gw (ρ-1) γ hγ,
      rowdiv gw ρ (γ-1) (by omega), rowmod gw ρ (γ-1) (by omega),
      rowdiv gw ρ γ hγ, rowmod gw ρ γ hγ,
      rowdiv gw (ρ+1) (γ-1) (by omega), rowmod gw (ρ+1) (γ-1) (by omega),
      rowdiv gw (ρ+1) γ hγ, rowmod gw (ρ+1) γ hγ,
      ite_ite_fold]
    have hsplit : γ + 2 ≤ c ∨ γ + 1 = c ∨ γ = c ∨ γ = c + 1 ∨ c + 2 ≤ γ := by omega
    rcases hsplit with h|h|h|h|h
    · simp only [eq_false (show ¬(γ-1 = c) by omega), eq_false (show ¬(γ = c) by omega),
        eq_false (show ¬(γ+1 = c) by omega), false_and, and_false, true_and, and_true,
        false_or, or_false, true_or, or_true, if_false, if_true, ite_self,
        eq_self_iff_true, Nat.add_zero, Nat.zero_add]
      split_ifs <;> first | contradiction | omega
    · simp only [eq_false (show ¬(γ-1 = c) by omega), eq_false (show ¬(γ = c) by omega),
        eq_true h, false_and, and_false, true_and, and_true,
        false_or, or_false, true_or, or_true, if_false, if_true, ite_self,
        eq_self_iff_true, Nat.add_zero, Nat.zero_add]
      split_ifs <;> first | contradiction | omega
    · simp only [eq_true h, eq_false (show ¬(γ-1 = c) by omega),
        eq_false (show ¬(γ+1 = c) by omega), false_and, and_false, true_and, and_true,
        false_or, or_false, true_or, or_true, if_false, if_true, ite_self,
        eq_self_iff_true, Nat.add_zero, Nat.zero_add]
      split_ifs <;> first | contradiction | omega
    · simp only [eq_true (show γ-1 = c by omega), eq_false (show ¬(γ = c) by omega),
        eq_false (show ¬(γ+1 = c) by omega), false_and, and_false, true_and, and_true,
        false_or, or_false, true_or, or_true, if_false, if_true, ite_self,
        eq_self_iff_true, Nat.add_zero, Nat.zero_add]
      split_ifs <;> first | contradiction | omega
    · simp only [eq_false (show ¬(γ-1 = c) by omega), eq_false (show ¬(γ = c) by omega),
        eq_false (show ¬(γ+1 = c) by omega), false_and, and_false, true_and, and_true,
        false_or, or_false, true_or, or_true, if_false, if_true, ite_self,
        eq_self_iff_true, Nat.add_zero, Nat.zero_add]
      split_ifs <;> first | contradiction | omega

/-- The grid after `tick`, read cell by cell. -/
theorem tick_grid_apply (s : St) (i : Nat) :
    (tick s).grid i = if i < s.gs then nextCellVal s.gw s.gh s.grid i else s.grid i := by
  rw [tick_eq_copyAll]
  show (if i < s.gs then nextDiff s i else s.grid i) = _
  unfold nextDiff
  by_cases hi : i < s.gs <;> simp [hi]

theorem stepH (gw gh r c : Nat) (hr1 : 1 ≤ r) (hr2 : r + 2 ≤ gh)
    (hc1 : 2 ≤ c) (hc2 : c + 3 ≤ gw) (i : Nat) :
    (if i < gw * gh then nextCellVal gw gh (lineH gw r c) i else lineH gw r c i)
      = lineV gw r c i := by
  by_cases hi : i < gw * gh
  · rw [if_pos hi]
    obtain ⟨hsum, hρ0, hγ0⟩ := idx_decomp gw gh i hi
    obtain ⟨ρ, γ, hρ, hγ, rfl⟩ : ∃ ρ γ, ρ < gh ∧ γ < gw ∧ ρ * gw + γ = i :=
      ⟨i / gw, i % gw, hρ0, hγ0, hsum⟩
    exact stepH_rc gw gh r c hr1 hr2 hc1 hc2 ρ γ hρ hγ
  · rw [if_neg hi]
    have hgw : 0 < gw := by omega
    obtain ⟨q, m, hm, hq, rfl⟩ : ∃ q m, m < gw ∧ gh ≤ q ∧ q * gw + m = i := by
      refine ⟨i / gw, i % gw, Nat.mod_lt _ hgw, ?_, ?_⟩
      · rw [Nat.le_div_iff_mul_le hgw]
        have hcomm : gh * gw = gw * gh := Nat.mul_comm gh gw
        omega
      · rw [Nat.mul_comm]
        exact Nat.div_add_mod i gw
    simp only [lineH, lineV, rowdiv gw q m hm, rowmod gw q m hm]
    rw [if_neg (show ¬(q = r ∧ (m = c-1 ∨ m = c ∨ m = c+1)) by omega),
        if_neg (show ¬((q = r-1 ∨ q = r ∨ q = r+1) ∧ m = c) by omega)]

theorem stepV (gw gh r c : Nat) (hr1 : 1 ≤ r) (hr2 : r + 2 ≤ gh)
    (hc1 : 2 ≤ c) (hc2 : c + 3 ≤ gw) (i : Nat) :
    (if i < gw * gh then nextCellVal gw gh (lineV gw r c) i else lineV gw r c i)
      = lineH gw r c i := by
  by_cases hi : i < gw * gh
  · rw [if_pos hi]
    obtain ⟨hsum, hρ0, hγ0⟩ := idx_decomp gw gh i hi
    obtain ⟨ρ, γ, hρ, hγ, rfl⟩ : ∃ ρ γ, ρ < gh ∧ γ < gw ∧ ρ * gw + γ = i :=
      ⟨i / gw, i % gw, hρ0, hγ0, hsum⟩
    exact stepV_rc gw gh r c hr1 hr2 hc1 hc2 ρ γ hρ hγ
  · rw [if_neg hi]
    have hgw : 0 < gw := by omega
    obtain ⟨q, m, hm, hq, rfl⟩ : ∃ q m, m < gw ∧ gh ≤ q ∧ q * gw + m = i := by
      refine ⟨i / gw, i % gw, Nat.mod_lt _ hgw, ?_, ?_⟩
      · rw [Nat.le_div_iff_mul_le hgw]
        have hcomm : gh * gw = gw * gh := Nat.mul_comm gh gw
        omega
      · rw [Nat.mul_comm]
        exact Nat.div_add_mod i gw
    simp only [lineH, lineV, rowdiv gw q m hm, rowmod gw q m hm]
    rw [if_neg (show ¬((q = r-1 ∨ q = r ∨ q = r+1) ∧ m = c) by omega),
        if_neg (show ¬(q = r ∧ (m = c-1 ∨ m = c ∨ m = c+1)) by omega)]

theorem tick_generation (s : St) : (tick s).generation = s.generation + 1 := rfl

/-- C3: a horizontal 3-cell line whose cells' 8-neighborhoods lie
entirely inside the grid, with every other cell dead, becomes after one
`tick` exactly the vertical 3-cell line centered on the same middle
cell, and after a second `tick` the original horizontal line again —
period 2 — with the generation counter advanced by 2. -/
theorem blinker_period_two (gw gh r c : Nat) (d0 : Nat → Nat) (g0 : Nat)
    (hr1 : 1 ≤ r) (hr2 : r + 2 ≤ gh) (hc1 : 2 ≤ c) (hc2 : c + 3 ≤ gw) :
    (tick (St.mk gw gh (gw*gh) (lineH gw r c) d0 g0)).grid = lineV gw r c
    ∧ (tick (tick (St.mk gw gh (gw*gh) (lineH gw r c) d0 g0))).grid = lineH gw r c
    ∧ (tick (tick (St.mk gw gh (gw*gh) (lineH gw r c) d0 g0))).generation = g0 + 2 := by
  have h1 : (tick (St.mk gw gh (gw*gh) (lineH gw r c) d0 g0)).grid = lineV gw r c := by
    funext i
    rw [tick_grid_apply]
    exact stepH gw gh r c hr1 hr2 hc1 hc2 i
  refine ⟨h1, ?_, ?_⟩
  · funext i
    rw [tick_grid_apply, h1]
    exact stepV gw gh r c hr1 hr2 hc1 hc2 i
  · rw [tick_generation, tick_generation]

theorem blinker_period_two_witness :
    ((1 ≤ 1 ∧ 1 + 2 ≤ 3) ∧ (2 ≤ 2 ∧ 2 + 3 ≤ 5))
    ∧ ((tick (St.mk 5 3 (5*3) (lineH 5 1 2) (fun _ => 0) 0)).grid = lineV 5 1 2
      ∧ (tick (tick (St.mk 5 3 (5*3) (lineH 5 1 2) (fun _ => 0) 0))).grid = lineH 5 1 2
      ∧ (tick (tick (St.mk 5 3 (5*3) (lineH 5 1 2) (fun _ => 0) 0))).generation = 0 + 2) :=
  ⟨⟨⟨by decide, by decide⟩, ⟨by decide, by decide⟩⟩,
   blinker_period_two 5 3 1 2 (fun _ => 0) 0 (by decide) (by decide) (by decide) (by decide)⟩

/- ### Pattern file loading (src/cgol.c:85-109) -/

/-- Two-step structural induction on character lists, matching the
`p += 2` stride of the `gridfile` inner loop. -/
theorem twoStep_induction {motive : List Char → Prop}
    (h0 : motive []) (h1 : ∀ ch, motive [ch])
    (h2 : ∀ ch ch2 rest, motive rest → motive (ch :: ch2 :: rest)) :
    ∀ l, motive l
  | [] => h0
  | [ch] => h1 ch
  | ch :: ch2 :: rest => h2 ch ch2 rest (twoStep_induction h0 h1 h2 rest)

/-- The decoded content of one raw `getline` result: the characters at
even positions 0, 2, 4, ... strictly before the newline or the end of
the buffer (the loop `while(*p && *p != '\n') { ...; p += 2; }`). -/
def decoded : List Char → List Char
  | [] => []
  | [ch] => if ch = '\n' then [] else [ch]
  | ch :: _ :: rest => if ch = '\n' then [] else ch :: decoded rest

/-- The inner loop of `gridfile` (src/cgol.c:98-103) on one raw line:
starting at column `c` of row `r`, write one cell per character at
even stride, alive exactly for '1', stopping at a newline or at the
end.  A read past the `getline` terminator (possible in C only for a
newline-less last line of odd length) is modelled as the terminator. -/
def loadLine (gw r : Nat) : Nat → (Nat → Nat) → List Char → (Nat → Nat)
  | _, g, [] => g
  | c, g, [ch] =>
      if ch = '\n' then g
      else writeCell g (r * gw + c) (if ch = '1' then 1 else 0)
  | c, g, ch :: _ :: rest =>
      if ch = '\n' then g
      else loadLine gw r (c+1) (writeCell g (r * gw + c) (if ch = '1' then 1 else 0)) rest

/-- The outer loop of `gridfile` (src/cgol.c:96-105): one raw line per
row `r`, rows counted up from 0, with no bound checked against the
grid dimensions. -/
def gridfileGo (gw : Nat) : Nat → (Nat → Nat) → List (List Char) → (Nat → Nat)
  | _, g, [] => g
  | r, g, line :: rest => gridfileGo gw (r+1) (loadLine gw r 0 g line) rest

/-- `gridfile` (src/cgol.c:85-109) on the list of `getline` results. -/
def gridfileModel (gw : Nat) (lines : List (List Char)) (g : Nat → Nat) : Nat → Nat :=
  gridfileGo gw 0 g lines

/-- What `loadLine` leaves at index `j`: the decoded cells occupy the
consecutive indices from `r*gw+c` on, one per decoded character. -/
theorem loadLine_apply (gw r : Nat) :
    ∀ (line : List Char) (c : Nat) (g : Nat → Nat) (j : Nat),
      loadLine gw r c g line j =
        if r * gw + c ≤ j ∧ j < r * gw + c + (decoded line).length then
          (if (decoded line).getD (j - (r * gw + c)) ' ' = '1' then 1 else 0)
        else g j := by
  intro line
  induction line using twoStep_induction with
  | h0 =>
      intro c g j
      simp only [loadLine, decoded, List.length_nil]
      rw [if_neg (show ¬(r * gw + c ≤ j ∧ j < r * gw + c + 0) by omega)]
  | h1 ch =>
      intro c g j
      by_cases hch : ch = '\n'
      · simp only [loadLine, decoded, if_pos hch, List.length_nil]
        rw [if_neg (show ¬(r * gw + c ≤ j ∧ j < r * gw + c + 0) by omega)]
      · simp only [loadLine, decoded, if_neg hch, List.length_singleton]
        by_cases hj : j = r * gw + c
        · rw [show writeCell g (r * gw + c) (if ch = '1' then 1 else 0) j
                = (if ch = '1' then 1 else 0) from by simp [writeCell, hj]]
          rw [if_pos (show r * gw + c ≤ j ∧ j < r * gw + c + 1 by omega)]
          have h0 : j - (r * gw + c) = 0 := by omega
          rw [h0, List.getD_cons_zero]
        · rw [show writeCell g (r * gw + c) (if ch = '1' then 1 else 0) j = g j
                from by simp [writeCell, hj]]
          rw [if_neg (show ¬(r * gw + c ≤ j ∧ j < r * gw + c + 1) by omega)]
  | h2 ch ch2 rest ih =>
      intro c g j
      by_cases hch : ch = '\n'
      · simp only [loadLine, decoded, if_pos hch, List.length_nil]
        rw [if_neg (show ¬(r * gw + c ≤ j ∧ j < r * gw + c + 0) by omega)]
      · simp only [loadLine, decoded, if_neg hch, List.length_cons]
        rw [ih (c+1) (writeCell g (r * gw + c) (if ch = '1' then 1 else 0)) j]
        by_cases hj : j = r * gw + c
        · rw [if_neg (show ¬(r * gw + (c+1) ≤ j
                ∧ j < r * gw + (c+1) + (decoded rest).length) by omega)]
          rw [show writeCell g (r * gw + c) (if ch = '1' then 1 else 0) j
                = (if ch = '1' then 1 else 0) from by simp [writeCell, hj]]
          rw [if_pos (show r * gw + c ≤ j
                ∧ j < r * gw + c + ((decoded rest).length + 1) by omega)]
          have h0 : j - (r * gw + c) = 0 := by omega
          rw [h0, List.getD_cons_zero]
        · rw [show writeCell g (r * gw + c) (if ch = '1' then 1 else 0) j = g j
                from by simp [writeCell, hj]]
          by_cases hj2 : r * gw + (c+1) ≤ j ∧ j < r * gw + (c+1) + (decoded rest).length
          · rw [if_pos hj2]
            rw [if_pos (show r * gw + c ≤ j
                  ∧ j < r * gw + c + ((decoded rest).length + 1) by omega)]
            have hk : j - (r * gw + c) = (j - (r * gw + (c+1))) + 1 := by omega
            rw [hk, List.getD_cons_succ]
          · rw [if_neg hj2]
            rw [if_neg (show ¬(r * gw + c ≤ j
                  ∧ j < r * gw + c + ((decoded rest).length + 1)) by omega)]

theorem idx_row_lt (gw a b γ : Nat) (hγ : γ < gw) (hab : a < b) :
    a * gw + γ < b * gw := by
  have h1 : a * gw + γ < (a+1) * gw := by
    rw [Nat.succ_mul]; omega
  have h2 : (a+1) * gw ≤ b * gw := Nat.mul_le_mul_right gw hab
  omega

/-- A decoded character is the raw character at twice its position. -/
theorem decoded_getD :
    ∀ (l : List Char) (k : Nat), k < (decoded l).length →
      (decoded l).getD k ' ' = l.getD (2 * k) ' ' := by
  intro l
  induction l using twoStep_induction with
  | h0 => intro k hk; simp [decoded] at hk
  | h1 ch =>
      intro k hk
      by_cases hch : ch = '\n'
      · simp [decoded, hch] at hk
      · simp only [decoded, if_neg hch, List.length_singleton] at hk
        interval_cases k
        simp [decoded, hch]
  | h2 ch ch2 rest ih =>
      intro k hk
      by_cases hch : ch = '\n'
      · simp [decoded, hch] at hk
      · simp only [decoded, if_neg hch, List.length_cons] at hk ⊢
        match k with
        | 0 => simp
        | k+1 =>
            have hk2 : k < (decoded rest).length := by omega
            rw [List.getD_cons_succ, ih k hk2]
            have h2k : 2 * (k + 1) = (2 * k) + 1 + 1 := by omega
            rw [h2k, List.getD_cons_succ, List.getD_cons_succ]

/-- What the whole file load leaves at the cell of row `ρ`, column
`γ`, provided every line decodes to at most `gw` columns. -/
theorem gridfileGo_apply (gw : Nat) :
    ∀ (lines : List (List Char)) (r : Nat) (g : Nat → Nat) (ρ γ : Nat),
      γ < gw → (∀ l ∈ lines, (decoded l).length ≤ gw) →
      gridfileGo gw r g lines (ρ * gw + γ) =
        if r ≤ ρ ∧ ρ < r + lines.length
            ∧ γ < (decoded (lines.getD (ρ - r) [])).length then
          (if (decoded (lines.getD (ρ - r) [])).getD γ ' ' = '1' then 1 else 0)
        else g (ρ * gw + γ) := by
  intro lines
  induction lines with
  | nil =>
      intro r g ρ γ hγ hlen
      simp only [gridfileGo, List.length_nil]
      rw [if_neg (show ¬(r ≤ ρ ∧ ρ < r + 0
            ∧ γ < (decoded (List.getD [] (ρ - r) [])).length) by omega)]
  | cons line rest ih =>
      intro r g ρ γ hγ hlen
      have hline : (decoded line).length ≤ gw := hlen line (List.mem_cons_self line rest)
      have hrest : ∀ l ∈ rest, (decoded l).length ≤ gw :=
        fun l hl => hlen l (List.mem_cons_of_mem line hl)
      simp only [gridfileGo, List.length_cons]
      rw [ih (r+1) (loadLine gw r 0 g line) ρ γ hγ hrest]
      rcases Nat.lt_trichotomy ρ r with hlt | heq | hgt
      · rw [if_neg (show ¬(r+1 ≤ ρ ∧ ρ < r+1+rest.length
              ∧ γ < (decoded (rest.getD (ρ - (r+1)) [])).length) by omega)]
        rw [loadLine_apply]
        rw [if_neg (show ¬(r * gw + 0 ≤ ρ * gw + γ
              ∧ ρ * gw + γ < r * gw + 0 + (decoded line).length) from by
          have hx := idx_row_lt gw ρ r γ hγ hlt
          omega)]
        rw [if_neg (show ¬(r ≤ ρ ∧ ρ < r + (rest.length + 1)
              ∧ γ < (decoded ((line :: rest).getD (ρ - r) [])).length) by omega)]
      · rw [heq]
        rw [if_neg (show ¬(r+1 ≤ r ∧ r < r+1+rest.length
              ∧ γ < (decoded (rest.getD (r - (r+1)) [])).length) by omega)]
        rw [loadLine_apply]
        have hsub : r - r = 0 := by omega
        rw [hsub]
        by_cases hγl : γ < (decoded line).length
        · rw [if_pos (show r * gw + 0 ≤ r * gw + γ
                ∧ r * gw + γ < r * gw + 0 + (decoded line).length by omega)]
          have hd : r * gw + γ - (r * gw + 0) = γ := by omega
          rw [hd]
          rw [if_pos (show r ≤ r ∧ r < r + (rest.length + 1)
                ∧ γ < (decoded ((line :: rest).getD 0 [])).length from by
            refine ⟨by omega, by omega, ?_⟩
            rw [List.getD_cons_zero]
            exact hγl)]
          rw [List.getD_cons_zero]
        · rw [if_neg (show ¬(r * gw + 0 ≤ r * gw + γ
                ∧ r * gw + γ < r * gw + 0 + (decoded line).length) by omega)]
          rw [if_neg (show ¬(r ≤ r ∧ r < r + (rest.length + 1)
                ∧ γ < (decoded ((line :: rest).getD 0 [])).length) from by
            rw [List.getD_cons_zero]
            rintro ⟨-, -, hx⟩
            omega)]
      · have hk : ρ - r = (ρ - (r+1)) + 1 := by omega
        rw [hk, List.getD_cons_succ]
        rw [loadLine_apply]
        rw [if_neg (show ¬(r * gw + 0 ≤ ρ * gw + γ
              ∧ ρ * gw + γ < r * gw + 0 + (decoded line).length) from by
          have h2 : (r+1) * gw ≤ ρ * gw := Nat.mul_le_mul_right gw hgt
          have h3 : r * gw + gw = (r+1) * gw := by rw [Nat.succ_mul]
          omega)]
        refine if_congr (by omega) rfl rfl

/-- The cell value the claim predicts for `(row, col)`: alive exactly
when character position `2*col` of line `row` holds '1'; rows beyond
the file's line count and columns beyond a line's decoded content stay
dead. -/
def claimFileCell (lines : List (List Char)) (row col : Nat) : Nat :=
  if row < lines.length ∧ col < (decoded (lines.getD row [])).length
      ∧ (lines.getD row []).getD (2 * col) ' ' = '1' then 1 else 0

/-- C4 counterexample: `gridfile` checks no bounds (src/cgol.c:96-105),
so loading a single-line file of 513 '1' characters into the default
256-wide grid writes flat index 256 — cell (1,0), in a row beyond the
file's only line, which the claim says remains dead — alive. -/
theorem gridfile_overflow :
    gridfileModel 256 [List.replicate 513 '1'] (callocBuf (256*256)) (1 * 256 + 0) = 1
    ∧ claimFileCell [List.replicate 513 '1'] 1 0 = 0 := by
  constructor
  · show loadLine 256 0 0 (callocBuf (256*256)) (List.replicate 513 '1') (1 * 256 + 0) = 1
    rw [loadLine_apply]
    have hlen : (decoded (List.replicate 513 '1')).length = 257 := by decide
    rw [if_pos (show 0 * 256 + 0 ≤ 1 * 256 + 0
          ∧ 1 * 256 + 0 < 0 * 256 + 0 + (decoded (List.replicate 513 '1')).length
          by omega)]
    have hch : (decoded (List.replicate 513 '1')).getD
        (1 * 256 + 0 - (0 * 256 + 0)) ' ' = '1' := by decide
    rw [if_pos hch]
  · decide

/-- C4 amended: provided the file has at most `gh` lines and every
line decodes to at most `gw` columns, `gridfile` on the zeroed grid
sets cell `(row, col)` alive exactly when character position `2*col`
of line `row` holds '1', leaves every uncovered cell dead, and leaves
everything at or beyond `gw*gh` untouched (dead). -/
theorem gridfile_loads (gw gh : Nat) (lines : List (List Char))
    (hgw : 0 < gw) (hrows : lines.length ≤ gh)
    (hcols : ∀ l ∈ lines, (decoded l).length ≤ gw)
    (ρ γ : Nat) (hγ : γ < gw) :
    gridfileModel gw lines (callocBuf (gw*gh)) (ρ * gw + γ) = claimFileCell lines ρ γ
    ∧ (∀ j, gw * gh ≤ j → gridfileModel gw lines (callocBuf (gw*gh)) j = 0) := by
  constructor
  · unfold gridfileModel claimFileCell
    rw [gridfileGo_apply gw lines 0 _ ρ γ hγ hcols]
    simp only [Nat.sub_zero, Nat.zero_add]
    by_cases hρl : ρ < lines.length
    · by_cases hγl : γ < (decoded (lines.getD ρ [])).length
      · rw [if_pos (show 0 ≤ ρ ∧ ρ < lines.length
              ∧ γ < (decoded (lines.getD ρ [])).length from ⟨Nat.zero_le ρ, hρl, hγl⟩)]
        simp only [decoded_getD (lines.getD ρ []) γ hγl]
        by_cases hc : (lines.getD ρ []).getD (2 * γ) ' ' = '1'
        · rw [if_pos hc, if_pos ⟨hρl, hγl, hc⟩]
        · rw [if_neg hc, if_neg (show ¬(ρ < lines.length
                ∧ γ < (decoded (lines.getD ρ [])).length
                ∧ (lines.getD ρ []).getD (2 * γ) ' ' = '1') from
              fun hx => hc hx.2.2)]
      · rw [if_neg (show ¬(0 ≤ ρ ∧ ρ < lines.length
              ∧ γ < (decoded (lines.getD ρ [])).length) from
            fun hx => hγl hx.2.2)]
        rw [if_neg (show ¬(ρ < lines.length
              ∧ γ < (decoded (lines.getD ρ [])).length
              ∧ (lines.getD ρ []).getD (2 * γ) ' ' = '1') from
            fun hx => hγl hx.2.1)]
        rfl
    · rw [if_neg (show ¬(0 ≤ ρ ∧ ρ < lines.length
            ∧ γ < (decoded (lines.getD ρ [])).length) from
          fun hx => hρl hx.2.1)]
      rw [if_neg (show ¬(ρ < lines.length
            ∧ γ < (decoded (lines.getD ρ [])).length
            ∧ (lines.getD ρ []).getD (2 * γ) ' ' = '1') from
          fun hx => hρl hx.1)]
      rfl
  · intro j hj
    unfold gridfileModel
    obtain ⟨q, m, hm, hq, rfl⟩ : ∃ q m, m < gw ∧ gh ≤ q ∧ q * gw + m = j := by
      refine ⟨j / gw, j % gw, Nat.mod_lt _ hgw, ?_, ?_⟩
      · rw [Nat.le_div_iff_mul_le hgw]
        have hcomm : gh * gw = gw * gh := Nat.mul_comm gh gw
        omega
      · rw [Nat.mul_comm]
        exact Nat.div_add_mod j gw
    rw [gridfileGo_apply gw lines 0 _ q m hm hcols]
    rw [if_neg (show ¬(0 ≤ q ∧ q < 0 + lines.length
          ∧ m < (decoded (lines.getD (q - 0) [])).length) by omega)]
    rfl

theorem gridfile_loads_witness :
    (0 < 3 ∧ ([['1', ' ', '0', ' ', '1']] : List (List Char)).length ≤ 1
      ∧ (∀ l ∈ ([['1', ' ', '0', ' ', '1']] : List (List Char)),
          (decoded l).length ≤ 3)
      ∧ 0 < 3)
    ∧ (gridfileModel 3 [['1', ' ', '0', ' ', '1']] (callocBuf (3*1)) (0 * 3 + 0)
        = claimFileCell [['1', ' ', '0', ' ', '1']] 0 0
      ∧ (∀ j, 3 * 1 ≤ j →
          gridfileModel 3 [['1', ' ', '0', ' ', '1']] (callocBuf (3*1)) j = 0)) :=
  ⟨⟨by decide, by decide, by decide, by decide⟩,
   gridfile_loads 3 1 [['1', ' ', '0', ' ', '1']] (by decide) (by decide)
     (by decide) 0 0 (by decide)⟩

/- ### Random seeding (src/cgol.c:111-118, 249-252) -/

/-- The inner column loop of `gridrand`: fill `n` cells of row `r`
from column `c` on, consuming one `random()` draw per cell, starting
at draw index `k`; a cell is made alive exactly when its draw is
divisible by 4 (`random() % 4 ? 0 : 1`, src/cgol.c:117).  Returns the
updated grid and the next draw index. -/
def fillRow (gw r : Nat) (rand : Nat → Nat) : Nat → Nat → Nat → (Nat → Nat) → ((Nat → Nat) × Nat)
  | 0, _, k, g => (g, k)
  | n+1, c, k, g =>
      fillRow gw r rand n (c+1) (k+1)
        (writeCell g (r * gw + c) (if rand k % 4 = 0 then 1 else 0))

/-- The outer row loop of `gridrand`: `m` rows from row `r` on, each
filling `cN` columns. -/
def fillRows (gw cN : Nat) (rand : Nat → Nat) : Nat → Nat → Nat → (Nat → Nat) → ((Nat → Nat) × Nat)
  | 0, _, k, g => (g, k)
  | m+1, r, k, g =>
      let p := fillRow gw r rand cN 0 k g
      fillRows gw cN rand m (r+1) p.2 p.1

/-- `gridrand w h` (src/cgol.c:111-118): the row loop runs while
`r < h && r < gh` — `min h gh` rows — and the column loop while
`c < w && c < gw` — `min w gw` columns; `rand` is the stream of
`random()` results in call order.  `main` calls `gridrand cols rows`
(src/cgol.c:251), so `w`, `h` are the viewport dimensions. -/
def gridrandModel (w h gw gh : Nat) (rand : Nat → Nat) (g : Nat → Nat) : Nat → Nat :=
  (fillRows gw (min w gw) rand (min h gh) 0 0 g).1

theorem fillRow_snd (gw r : Nat) (rand : Nat → Nat) :
    ∀ n c k g, (fillRow gw r rand n c k g).2 = k + n := by
  intro n
  induction n with
  | zero => intro c k g; simp [fillRow]
  | succ n ih =>
      intro c k g
      rw [show fillRow gw r rand (n+1) c k g
            = fillRow gw r rand n (c+1) (k+1)
                (writeCell g (r * gw + c) (if rand k % 4 = 0 then 1 else 0))
            from rfl]
      rw [ih]
      omega

theorem fillRow_fst (gw r : Nat) (rand : Nat → Nat) :
    ∀ n c k g j, (fillRow gw r rand n c k g).1 j =
      if r * gw + c ≤ j ∧ j < r * gw + c + n then
        (if rand (k + (j - (r * gw + c))) % 4 = 0 then 1 else 0)
      else g j := by
  intro n
  induction n with
  | zero =>
      intro c k g j
      simp only [fillRow]
      rw [if_neg (show ¬(r * gw + c ≤ j ∧ j < r * gw + c + 0) by omega)]
  | succ n ih =>
      intro c k g j
      rw [show fillRow gw r rand (n+1) c k g
            = fillRow gw r rand n (c+1) (k+1)
                (writeCell g (r * gw + c) (if rand k % 4 = 0 then 1 else 0))
            from rfl]
      rw [ih (c+1) (k+1) _ j]
      by_cases hj : j = r * gw + c
      · rw [if_neg (show ¬(r * gw + (c+1) ≤ j ∧ j < r * gw + (c+1) + n) by omega)]
        rw [show writeCell g (r * gw + c) (if rand k % 4 = 0 then 1 else 0) j
              = (if rand k % 4 = 0 then 1 else 0) from by simp [writeCell, hj]]
        rw [if_pos (show r * gw + c ≤ j ∧ j < r * gw + c + (n+1) by omega)]
        have h0 : k + (j - (r * gw + c)) = k := by omega
        rw [h0]
      · rw [show writeCell g (r * gw + c) (if rand k % 4 = 0 then 1 else 0) j = g j
              from by simp [writeCell, hj]]
        by_cases hj2 : r * gw + (c+1) ≤ j ∧ j < r * gw + (c+1) + n
        · rw [if_pos hj2]
          rw [if_pos (show r * gw + c ≤ j ∧ j < r * gw + c + (n+1) by omega)]
          have harg : (k+1) + (j - (r * gw + (c+1))) = k + (j - (r * gw + c)) := by
            omega
          rw [harg]
        · rw [if_neg hj2]
          rw [if_neg (show ¬(r * gw + c ≤ j ∧ j < r * gw + c + (n+1)) by omega)]

theorem fillRows_apply (gw cN : Nat) (rand : Nat → Nat) (hcN : cN ≤ gw) :
    ∀ m r k g ρ γ, γ < gw →
      (fillRows gw cN rand m r k g).1 (ρ * gw + γ) =
        if r ≤ ρ ∧ ρ < r + m ∧ γ < cN then
          (if rand (k + (ρ - r) * cN + γ) % 4 = 0 then 1 else 0)
        else g (ρ * gw + γ) := by
  intro m
  induction m with
  | zero =>
      intro r k g ρ γ hγ
      simp only [fillRows]
      rw [if_neg (show ¬(r ≤ ρ ∧ ρ < r + 0 ∧ γ < cN) by omega)]
  | succ m ih =>
      intro r k g ρ γ hγ
      rw [show fillRows gw cN rand (m+1) r k g
            = fillRows gw cN rand m (r+1) (fillRow gw r rand cN 0 k g).2
                (fillRow gw r rand cN 0 k g).1 from rfl]
      rw [ih (r+1) _ _ ρ γ hγ, fillRow_snd, fillRow_fst]
      rcases Nat.lt_trichotomy ρ r with hlt | heq | hgt
      · rw [if_neg (show ¬(r+1 ≤ ρ ∧ ρ < r+1+m ∧ γ < cN) by omega)]
        rw [if_neg (show ¬(r * gw + 0 ≤ ρ * gw + γ
              ∧ ρ * gw + γ < r * gw + 0 + cN) from by
          have hx := idx_row_lt gw ρ r γ hγ hlt
          omega)]
        rw [if_neg (show ¬(r ≤ ρ ∧ ρ < r + (m+1) ∧ γ < cN) by omega)]
      · rw [heq]
        rw [if_neg (show ¬(r+1 ≤ r ∧ r < r+1+m ∧ γ < cN) by omega)]
        by_cases hγc : γ < cN
        · rw [if_pos (show r * gw + 0 ≤ r * gw + γ
                ∧ r * gw + γ < r * gw + 0 + cN by omega)]
          rw [if_pos (show r ≤ r ∧ r < r + (m+1) ∧ γ < cN by omega)]
          have harg : k + (r * gw + γ - (r * gw + 0)) = k + (r - r) * cN + γ := by
            have hs : r - r = 0 := by omega
            rw [hs, Nat.zero_mul]
            omega
          rw [harg]
        · rw [if_neg (show ¬(r * gw + 0 ≤ r * gw + γ
                ∧ r * gw + γ < r * gw + 0 + cN) by omega)]
          rw [if_neg (show ¬(r ≤ r ∧ r < r + (m+1) ∧ γ < cN) from
              fun hx => hγc hx.2.2)]
      · rw [if_neg (show ¬(r * gw + 0 ≤ ρ * gw + γ
              ∧ ρ * gw + γ < r * gw + 0 + cN) from by
          have h2 : (r+1) * gw ≤ ρ * gw := Nat.mul_le_mul_right gw hgt
          have h3 : r * gw + gw = (r+1) * gw := by rw [Nat.succ_mul]
          omega)]
        have harg : (k + cN) + (ρ - (r+1)) * cN + γ = k + (ρ - r) * cN + γ := by
          have hs : ρ - r = (ρ - (r+1)) + 1 := by omega
          rw [hs, Nat.succ_mul]
          omega
        rw [harg]
        refine if_congr (by omega) rfl rfl

/-- C5: with no pattern file, `gridrand cols rows` assigns a state
exactly to the cells with row < min(viewport rows, grid height) and
col < min(viewport cols, grid width); such a cell is made alive
exactly when its `random()` draw is divisible by 4, and every cell
outside that region keeps its initial (dead) value. -/
theorem gridrand_region (w h gw gh : Nat) (rand : Nat → Nat) (g0 : Nat → Nat)
    (ρ γ : Nat) (hγ : γ < gw) :
    gridrandModel w h gw gh rand g0 (ρ * gw + γ) =
      if ρ < min h gh ∧ γ < min w gw then
        (if rand (ρ * min w gw + γ) % 4 = 0 then 1 else 0)
      else g0 (ρ * gw + γ) := by
  unfold gridrandModel
  rw [fillRows_apply gw (min w gw) rand (Nat.min_le_right w gw)
      (min h gh) 0 0 g0 ρ γ hγ]
  rcases Nat.lt_or_ge ρ (min h gh) with hρm | hρm
  · by_cases hγm : γ < min w gw
    · rw [if_pos (show 0 ≤ ρ ∧ ρ < 0 + min h gh ∧ γ < min w gw by omega)]
      rw [if_pos (show ρ < min h gh ∧ γ < min w gw from ⟨hρm, hγm⟩)]
      have harg : 0 + (ρ - 0) * min w gw + γ = ρ * min w gw + γ := by
        rw [Nat.sub_zero]
        omega
      rw [harg]
    · rw [if_neg (show ¬(0 ≤ ρ ∧ ρ < 0 + min h gh ∧ γ < min w gw) from
          fun hx => hγm hx.2.2)]
      rw [if_neg (show ¬(ρ < min h gh ∧ γ < min w gw) from fun hx => hγm hx.2)]
  · rw [if_neg (show ¬(0 ≤ ρ ∧ ρ < 0 + min h gh ∧ γ < min w gw) by omega)]
    rw [if_neg (show ¬(ρ < min h gh ∧ γ < min w gw) by omega)]

theorem gridrand_region_witness :
    0 < 1
    ∧ gridrandModel 1 1 1 1 (fun _ => 0) (fun _ => 0) (0 * 1 + 0) =
        if 0 < min 1 1 ∧ 0 < min 1 1 then
          (if (fun _ : Nat => 0) (0 * min 1 1 + 0) % 4 = 0 then 1 else 0)
        else (fun _ : Nat => 0) (0 * 1 + 0) :=
  ⟨by decide, gridrand_region 1 1 1 1 (fun _ => 0) (fun _ => 0) 0 0 (by decide)⟩

end Cgol
